import Mathlib

/-!
Verification of the satnow core against its specification.

The C++ sources (src/main.cc, src/main.hh, src/db.cc, src/db.hh,
src/display.cc, src/display.hh) are shallowly embedded below.  C++
`std::string` values are modelled as `List Char`; line streams (files,
downloaded buffers) are modelled as lists of lines, where `readLine`
yields successive lines and fails at end of input.  The external
collaborators (libsgp4 orbit propagation, libcurl transfers, sqlite3
storage, ncurses drawing) are modelled as pure parameters or explicit
state, exactly at the contract boundary the spec draws around them.
-/

/-- A C++ `std::string`, modelled as its character list. -/
abbrev Str := List Char

/-- C `isalpha` in the default locale: ASCII letters only.  Lean's
`Char.isAlpha` has exactly this meaning. -/
def cIsAlpha (c : Char) : Bool := c.isAlpha

/-- The whitespace set `" \t\r\n"` used by `readTLEs` (name trimming) and
`update` (manifest trimming) in src/main.cc. -/
def isManifestWS (c : Char) : Bool :=
  c = ' ' || c = '\t' || c = '\r' || c = '\n'

/-- The character `#`. -/
def hashChar : Char := '#'

/-- The set `"# \t\r\n"` used by `update` in src/main.cc when locating the
end of a manifest entry and any inline trailing comment. -/
def isWSorHash (c : Char) : Bool :=
  c = hashChar || isManifestWS c

/-- C++ `std::string::operator[]`: the character at index `i`, with the
guaranteed null character at index `size()` (C++11). -/
def charAt (s : Str) (i : Nat) : Char := (s.drop i).headD (Char.ofNat 0)

/-- First index at which `p` holds (C++ `find_first_of` /
`find_first_not_of` family, `npos` becoming `none`). -/
def findFirst (p : Char → Bool) : Str → Option Nat
  | [] => none
  | c :: rest => if p c then some 0 else (findFirst p rest).map (· + 1)

/-- Last index at which `p` holds (C++ `find_last_not_of` family with the
predicate complemented by the caller, `npos` becoming `none`). -/
def findLast (p : Char → Bool) : Str → Option Nat
  | [] => none
  | c :: rest =>
    match findLast p rest with
    | some i => some (i + 1)
    | none => if p c then some 0 else none

/-- First index `≥ start` at which `p` holds (C++ `find_first_of(set, pos)`). -/
def findFirstFrom (p : Char → Bool) (s : Str) (start : Nat) : Option Nat :=
  (findFirst p (s.drop start)).map (· + start)

/-- C++ `substr(pos, len)`. -/
def substr (s : Str) (pos len : Nat) : Str := (s.drop pos).take len

/-- Does `s` begin with `pat`? -/
def strStarts : Str → Str → Bool
  | _, [] => true
  | [], _ :: _ => false
  | c :: s, d :: pat => c = d && strStarts s pat

/-- Does `s` contain `pat` as a contiguous substring
(C++ `s.find(pat) != npos`)? -/
def strHas : Str → Str → Bool
  | s, pat =>
    match s with
    | [] => pat.isEmpty
    | _ :: rest => strStarts s pat || strHas rest pat

/- ### The element parser (`readTLEs`, src/main.cc lines 131-165) -/

/-- One parsed element record as constructed by `readTLEs`:
`Tle(name, line1.substr(0,69), line2.substr(0,69))`.  The numeric catalog
identifier is extracted from `line1` by the external libsgp4 `Tle`
constructor and is therefore kept outside this structure; store-level
claims take the extraction as a pure parameter. -/
structure TleRec where
  name : Str
  line1 : Str
  line2 : Str
deriving DecidableEq, Repr

/-- The name-line heuristic of `readTLEs`:
`std::isalpha(line1[0]) || line1.size() <= 24`. -/
def classifyName (l : Str) : Bool :=
  cIsAlpha (charAt l 0) || decide (l.length ≤ 24)

/-- Trailing-whitespace trim of `readTLEs`: `find_last_not_of(" \t\r\n")`;
when every character is whitespace (`npos`), the string is left unchanged. -/
def trimTrailing (s : Str) : Str :=
  match findLast (fun c => !isManifestWS c) s with
  | none => s
  | some en => s.take (en + 1)

/-- The 22-character cap of `readTLEs`:
`if (name.size() > 22) name = name.substr(0, 22)`. -/
def truncate22 (s : Str) : Str :=
  if s.length > 22 then s.take 22 else s

/-- The name attached to the record begun at line `l`: assigned only when
the heuristic classifies `l` as a name line (otherwise the cleared name,
the empty string, remains), then trimmed and capped. -/
def tleName (l : Str) : Str :=
  truncate22 (trimTrailing (if classifyName l then l else []))

/-- `readTLEs` over a line stream.  Each loop iteration reads one line
(the name-line candidate) and then unconditionally reads two further
lines as the two data lines; if either further read fails the function
prints a diagnostic and returns the records parsed so far.  The returned
Boolean records whether that truncated-input diagnostic was emitted. -/
def readTLEs : List Str → List TleRec × Bool
  | [] => ([], false)
  | [_] => ([], true)
  | [_, _] => ([], true)
  | l :: d1 :: d2 :: rest =>
    let r := readTLEs rest
    (⟨tleName l, d1.take 69, d2.take 69⟩ :: r.1, r.2)

/- ### Manifest-entry trimming (`update`, src/main.cc lines 222-252) -/

/-- The per-line trimming logic of `update`: returns the location string
to resolve, or `none` when the line is skipped (all-whitespace line,
`npos` from either find, whole-line comment, or empty trim result).
`st`/`en` and the substring call are translated verbatim. -/
def parseManifestLine (line : Str) : Option Str :=
  match findFirst (fun c => !isManifestWS c) line with
  | none => none
  | some st =>
    match findLast (fun c => !isWSorHash c) line with
    | none => none
    | some en0 =>
      let en1 := en0 + 1
      if charAt line st = hashChar then none
      else if en1 - st = 0 then none
      else
        let en2 := match findFirstFrom isWSorHash line st with
                   | some c => c
                   | none => en1
        some (substr line st (en2 - st))

/- ### Source resolution (`tryParseFile` / `tryParseURL`, src/main.cc) -/

/-- The protocol delimiter `"://"`. -/
def urlSep : Str := [':', '/', '/']

/-- The world the loader runs against: `files` models `fopen` (an openable
local path yields its line stream), `curl` models a blocking
`curl_easy_perform` (the returned `Nat` is the `CURLcode`, `0` meaning
success, paired with the lines written to the temp file).  The always-
succeeding `curl_easy_init`/`curl_easy_setopt`/`tmpfile` steps are not
modelled as failure points. -/
structure World where
  files : Str → Option (List Str)
  curl : Str → Nat × List Str

/-- `tryParseFile`: refuses URL-looking names, otherwise opens the file
and appends its parsed records.  Returns (found, records appended). -/
def tryParseFile (w : World) (fname : Str) : Bool × List TleRec :=
  if strHas fname urlSep then (false, [])
  else
    match w.files fname with
    | none => (false, [])
    | some lines => (true, (readTLEs lines).1)

/-- `tryParseURL`: refuses names without `"://"`, otherwise downloads,
parses whatever was written to the temp file, and returns
`ok = !!curl_easy_perform(crl)` — note this is `true` exactly when the
CURLcode is nonzero, i.e. when the transfer FAILED.  The records parsed
from the buffer are appended regardless of `ok`. -/
def tryParseURL (w : World) (fname : Str) : Bool × List TleRec :=
  if !strHas fname urlSep then (false, [])
  else
    let r := w.curl fname
    (r.1 ≠ 0, (readTLEs r.2).1)

/- ### Catalog Store (`DBSQLite`, src/db.cc) -/

/-- The `tle` table: rows keyed by the `norad INT PRIMARY KEY` column.
The `timestamp` column never appears in any claim and is omitted. -/
abbrev DBState := List (Nat × TleRec)

/-- `DBSQLite::update`: `INSERT OR REPLACE INTO tle ...` keyed on the
primary key `norad`.  SQLite deletes any row with the conflicting key and
inserts the new row; `noradOf` is the external libsgp4
`Tle::NoradNumber()` extraction, taken as a pure parameter. -/
def dbUpdate (noradOf : TleRec → Nat) (db : DBState) (r : TleRec) : DBState :=
  (db.filter (fun row => row.1 != noradOf r)) ++ [(noradOf r, r)]

/-- `DBSQLite::fetchTLEs`: `SELECT name, line1, line2 FROM tle` rebuilds a
`Tle` per row (both branches of the `name.size()` conditional in the
callback construct the same value). -/
def dbFetch (db : DBState) : List TleRec := db.map (fun row => row.2)

/- ### Manifest ingestion (`update`, src/main.cc lines 213-264) -/

/-- The manifest loop of `update`, carrying the 1-based line counter.
Returns the accumulated records (in accumulation order), the line numbers
of emitted "Unknown entry" diagnostics, and the resolution attempts made
(location paired with `false` for the local `tryParseFile` attempt,
`true` for the remote `tryParseURL` attempt); `tryParseURL` runs only
when `tryParseFile` returned `false` (the `&&` short-circuit). -/
def collectTLEs (w : World) : List Str → Nat → List TleRec × List Nat × List (Str × Bool)
  | [], _ => ([], [], [])
  | line :: rest, n =>
    let lineNo := n + 1
    match parseManifestLine line with
    | none => collectTLEs w rest lineNo
    | some loc =>
      let r := collectTLEs w rest lineNo
      let f := tryParseFile w loc
      if f.1 then (f.2 ++ r.1, r.2.1, (loc, false) :: r.2.2)
      else
        let u := tryParseURL w loc
        if u.1 then (f.2 ++ u.2 ++ r.1, r.2.1, (loc, false) :: (loc, true) :: r.2.2)
        else (f.2 ++ u.2 ++ r.1, lineNo :: r.2.1, (loc, false) :: (loc, true) :: r.2.2)

/-- `update`: run the manifest loop, then upsert every accumulated record
into the store in accumulation order.  Returns the final store, the
diagnostic line numbers, and the resolution attempts. -/
def updateModel (w : World) (noradOf : TleRec → Nat) (manifest : List Str)
    (db : DBState) : DBState × List Nat × List (Str × Bool) :=
  let r := collectTLEs w manifest 0
  (r.1.foldl (dbUpdate noradOf) db, r.2.1, r.2.2)

/- ### Tracking view (`SatLookAngles`, src/main.hh lines 19-68) -/

/-- A look angle (libsgp4 `CoordTopocentric`): azimuth, elevation, range.
The doubles of the source are modelled as exact rationals; every claim
about them is purely order-theoretic. -/
structure LookAngle where
  azimuth : ℚ
  elevation : ℚ
  range : ℚ
deriving DecidableEq, Repr

/-- The external propagation pipeline
`Observer(lat,lon,alt).GetLookAngle(SGP4(tle).FindPosition(time))`,
taken as a pure function of the record, the observer position and the
timestamp (the spec treats it as a side-effect-free collaborator). -/
abbrev LookAngleFn := TleRec → ℚ → ℚ → ℚ → ℕ → LookAngle

/-- `SatLookAngles`: observer position, the `(Tle, CoordTopocentric)`
vector, and the timestamp snapshot `_time`. -/
structure SatView where
  lat : ℚ
  lon : ℚ
  alt : ℚ
  sats : List (TleRec × LookAngle)
  time : ℕ
deriving DecidableEq, Repr

/-- `SatLookAngles::add`: append the record paired with its look angle at
the snapshot `_time`. -/
def SatView.add (la : LookAngleFn) (v : SatView) (t : TleRec) : SatView :=
  { v with sats := v.sats ++ [(t, la t v.lat v.lon v.alt v.time)] }

/-- `SatLookAngles::updateTimeAndPositions`: recapture the timestamp once
(`_time = DateTime::Now(true)`, the fresh instant arriving as `now`), then
recompute every stored look angle against that one snapshot. -/
def SatView.updateTimeAndPositions (la : LookAngleFn) (v : SatView) (now : ℕ) : SatView :=
  { v with time := now,
           sats := v.sats.map (fun p => (p.1, la p.1 v.lat v.lon v.alt now)) }

/-- The `std::sort` comparator of `SatLookAngles::sort` induces ordering
by non-decreasing range. -/
def rangeLe (a b : TleRec × LookAngle) : Prop := a.2.range ≤ b.2.range

instance : DecidableRel rangeLe := fun a b =>
  inferInstanceAs (Decidable (a.2.range ≤ b.2.range))

instance : IsTotal (TleRec × LookAngle) rangeLe :=
  ⟨fun a b => le_total a.2.range b.2.range⟩

instance : IsTrans (TleRec × LookAngle) rangeLe :=
  ⟨fun _ _ _ h h2 => le_trans h h2⟩

/-- `SatLookAngles::sort`: `std::sort` with the range comparator.  Any
conforming `std::sort` output is a permutation ordered by `rangeLe`
(the comparator admits ties, so stability is unspecified); insertion sort
is one such output and is used as the model. -/
def SatView.sortSats (v : SatView) : SatView :=
  { v with sats := v.sats.insertionSort rangeLe }

/-- `getSatellitesAndLookAngles` (src/main.cc lines 277-292): construct
the view at one timestamp snapshot, `add` every fetched record, sort by
increasing range. -/
def getSatellitesAndLookAngles (la : LookAngleFn) (lat lon alt : ℚ)
    (tles : List TleRec) (now : ℕ) : SatView :=
  (tles.foldl (SatView.add la) ⟨lat, lon, alt, [], now⟩).sortSats

/-- The refresh performed by `updateMenu(..., updatePositions=true)`
(src/display.cc lines 94-101): `updateTimeAndPositions()` then `sort()`. -/
def refreshView (la : LookAngleFn) (now : ℕ) (v : SatView) : SatView :=
  (v.updateTimeAndPositions la now).sortSats

/- ### Interactive controller (`DisplayNCurses::render`, src/display.cc) -/

/-- The keys the `render` input loop dispatches on. -/
inductive GuiKey where
  | down
  | up
  | npage
  | ppage
  | detail
  | space
  | quit
  | other
deriving DecidableEq, Repr

/-- A `getch` outcome: `some k` is a keypress, `none` is `ERR` (the bounded
wait expired with no key pressed).  Each outcome carries the instant at
which the loop body runs, feeding any `DateTime::Now` recapture. -/
abbrev GuiEvent := Option GuiKey × ℕ

/-- The abstract interactive session state: the view, the cursor index of
the menu, and whether the detail (info) panel is shown. -/
structure GuiState where
  view : SatView
  cursor : Nat
  detailShown : Bool
deriving DecidableEq, Repr

/-- `const int msecs = (_refreshSecs < 0) ? -1 : _refreshSecs;` followed by
`timeout(msecs)`: the value handed to ncurses.  Negative means block
indefinitely (no `ERR` from expiry); non-negative bounds the wait. -/
def renderTimeoutMsecs (refreshSecs : Int) : Int :=
  if refreshSecs < 0 then -1 else refreshSecs

/-- One iteration of the `render` input loop (the `switch`).  `KEY_DOWN` /
`KEY_UP` move the menu cursor, clamped to `[0, size-1]` by `menu_driver`;
the page keys scroll the displayed page (`menu_driver` display plumbing,
modelled as leaving the abstract cursor in place); `d` toggles the info
panel; a space or `ERR` rebuilds the menu with fresh look angles
(`updateMenu(..., true)`); anything else is ignored.  `q` never reaches
this step (the loop guard exits first). -/
def guiStep (la : LookAngleFn) (st : GuiState) (ev : GuiEvent) : GuiState :=
  match ev.1 with
  | some .down =>
    { st with cursor := if st.cursor + 1 < st.view.sats.length
                        then st.cursor + 1 else st.cursor }
  | some .up => { st with cursor := st.cursor - 1 }
  | some .npage => st
  | some .ppage => st
  | some .detail => { st with detailShown := !st.detailShown }
  | some .space => { st with view := refreshView la ev.2 st.view }
  | some .quit => st
  | some .other => st
  | none => { st with view := refreshView la ev.2 st.view }

/-- The `while ((c = getch()) != 'q')` loop over a finite event trace. -/
def renderRun (la : LookAngleFn) : List GuiEvent → GuiState → GuiState
  | [], st => st
  | ev :: rest, st =>
    if ev.1 = some GuiKey.quit then st
    else renderRun la rest (guiStep la st ev)

/- ### main (src/main.cc lines 404-480) -/

/-- The observable footprint of one `main` run, after flag parsing: whether
the coordinate validation failed the process, which records were upserted
into the store, and which records had a bearing computed for the view. -/
structure MainTrace where
  failedConfig : Bool
  upserts : List TleRec
  bearingCalls : List TleRec
deriving DecidableEq, Repr

/-- `main` after `getopt`: the coordinate gate
`lat > 90.0 || lat < -90.0 || lon > 180.0 || lon < -180.0` exits with
failure before the database is opened, before any `update` ingestion and
before `getSatellitesAndLookAngles` runs; otherwise ingestion (when a
source file was given) precedes view building over the fetched rows. -/
def mainModel (w : World) (noradOf : TleRec → Nat)
    (lat lon _alt : ℚ) (manifest : Option (List Str)) (db : DBState) : MainTrace :=
  if lat > 90 ∨ lat < -90 ∨ lon > 180 ∨ lon < -180 then ⟨true, [], []⟩
  else
    let ingested := match manifest with
      | none => []
      | some m => (collectTLEs w m 0).1
    let db2 := ingested.foldl (dbUpdate noradOf) db
    ⟨false, ingested, dbFetch db2⟩

/- ### The upsert query text (`DBSQLite::update`, src/db.cc lines 45-50) -/

/-- The single-quote character, code point 39. -/
def squote : Char := Char.ofNat 39

/-- The double-quote character, code point 34. -/
def dquote : Char := Char.ofNat 34

/-- One decimal digit character. -/
def digitChar (d : Nat) : Char :=
  match d with
  | 0 => '0' | 1 => '1' | 2 => '2' | 3 => '3' | 4 => '4'
  | 5 => '5' | 6 => '6' | 7 => '7' | 8 => '8' | _ => '9'

/-- `std::to_string` on an unsigned integer: its decimal digits. -/
def natStrAux (n : Nat) (acc : Str) : Str :=
  if h : n < 10 then digitChar n :: acc
  else natStrAux (n / 10) (digitChar (n % 10) :: acc)
decreasing_by exact Nat.div_lt_self (Nat.pos_of_ne_zero (by omega)) (by omega)

/-- `std::to_string(tle.NoradNumber())`. -/
def natStr (n : Nat) : Str := natStrAux n []

/-- The first C++ string literal of the query. -/
def qPre1 : Str := String.data "INSERT OR REPLACE INTO tle (name, norad, line1, line2) "

/-- The opening of the VALUES clause. -/
def qPre2 : Str := String.data "VALUES ("

/-- The `", "` separator between interpolated fields. -/
def qSep : Str := [',', ' ']

/-- The closing `");"` of the query. -/
def qEnd : Str := [')', ';']

/-- The exact query text built by `DBSQLite::update` by raw concatenation:
the name wrapped in single quotes, the norad number bare, each data line
wrapped in double quotes, with no escaping of any field content. -/
def mkUpdateQuery (name : Str) (norad : Nat) (line1 line2 : Str) : Str :=
  qPre1 ++ qPre2 ++ [squote] ++ name ++ [squote]
    ++ qSep ++ natStr norad
    ++ qSep ++ [dquote] ++ line1 ++ [dquote]
    ++ qSep ++ [dquote] ++ line2 ++ [dquote]
    ++ qEnd

/-- Drop everything through the first occurrence of `q` (the opening quote
of the next literal, as the SQLite tokenizer scans for it). -/
def dropThrough (q : Char) : Str → Str
  | [] => []
  | c :: rest => if c = q then rest else dropThrough q rest

/-- Read a quoted SQL literal, the opening quote already consumed: a
doubled quote is the escape for one quote character, a lone quote closes
the literal.  Returns the literal's content and the remainder after the
closing quote. -/
def readLit (q : Char) : Str → Str × Str
  | [] => ([], [])
  | c :: rest =>
    if c = q then
      match rest with
      | [] => ([], [])
      | c2 :: rest2 =>
        if c2 = q then
          let p := readLit q rest2
          (q :: p.1, p.2)
        else ([], rest)
    else
      let p := readLit q rest
      (c :: p.1, p.2)

/-- What sqlite3 stores for the three text fields when handed the
concatenated query: the single-quoted literal (the name), then the next
two double-quoted literals (the data lines), each read by the standard
SQL literal rules.  Composed with `mkUpdateQuery` this is the
upsert-then-fetch round trip for the text fields. -/
def extractFields (query : Str) : Str × Str × Str :=
  let afterName := readLit squote (dropThrough squote query)
  let afterL1 := readLit dquote (dropThrough dquote afterName.2)
  let afterL2 := readLit dquote (dropThrough dquote afterL1.2)
  (afterName.1, afterL1.1, afterL2.1)

/-- Modelled from the spec: the name line "trimmed of trailing
whitespace" — the unconditional trailing-whitespace strip the spec's words
describe, against which the code's `trimTrailing` is compared. -/
def specTrimTrailing (s : Str) : Str := (s.reverse.dropWhile isManifestWS).reverse

/- ### Concrete inputs used by the claim instances -/

/-- A 69-character data line starting with `1` (TLE line-1 form): not
alphabetic-leading and longer than 24 characters, hence not a name line. -/
def exC1Line1 : Str := List.replicate 69 '1'

/-- A 69-character data line starting with `2` (TLE line-2 form). -/
def exC1Line2 : Str := List.replicate 69 '2'

/-- A name line consisting entirely of whitespace (classified as a name
line by the length heuristic). -/
def exSpaces : Str := [' ', ' ', ' ']

/-- An ordinary alphabetic-leading name line with trailing whitespace. -/
def exName : Str := String.data "ISS (ZARYA)  "

/-- A world with no openable local files in which every transfer fails
with `CURLE_COULDNT_CONNECT` (CURLcode 7) and writes nothing. -/
def exWorld : World := ⟨fun _ => none, fun _ => (7, [])⟩

/-- A remote locator whose fetch fails in `exWorld`. -/
def exUrl : Str := String.data "http://x/"

/-- A manifest of one comment line, one empty line and one
whitespace-only line. -/
def exManifest : List Str := [String.data "# comment", [], [' ', '\t']]

/-- A manifest line with an inline trailing comment. -/
def exStripLine : Str := String.data "file.txt # x"

/-- Three distinct records for the range-ordering instances. -/
def recA : TleRec := ⟨['A'], [], []⟩

/-- Second record. -/
def recB : TleRec := ⟨['B'], [], []⟩

/-- Third record. -/
def recC : TleRec := ⟨['C'], [], []⟩

/-- A propagation oracle realizing the spec's worked example: ranges
500/100/300 for `recA`/`recB`/`recC` at timestamp 0, and 50/400/200 at
any later timestamp. -/
def exRangesLa : LookAngleFn := fun t _ _ _ time =>
  if time = 0 then
    if t = recA then ⟨0, 0, 500⟩ else if t = recB then ⟨0, 0, 100⟩ else ⟨0, 0, 300⟩
  else
    if t = recA then ⟨0, 0, 50⟩ else if t = recB then ⟨0, 0, 400⟩ else ⟨0, 0, 200⟩

/-- A one-entry view for the refresh frame instance. -/
def exView : SatView := ⟨0, 0, 0, [(recA, ⟨0, 0, 1⟩)], 0⟩

/-- An interactive session positioned at the top of the listing. -/
def exGuiState : GuiState := ⟨exView, 0, false⟩

/-- A name containing a single-quote character, demonstrating the lost
round-trip fidelity of the concatenated query. -/
def exBadName : Str := ['a', squote, 'b']

/- ### Supporting lemmas about the string-search helpers -/

theorem findFirst_eq_none_iff (p : Char → Bool) (s : Str) :
    findFirst p s = none ↔ ∀ c ∈ s, p c = false := by
  induction s with
  | nil => simp [findFirst]
  | cons c rest ih =>
    cases hc : p c with
    | true => simp [findFirst, hc]
    | false =>
      simp only [findFirst, hc, Bool.false_eq_true, if_false, Option.map_eq_none',
        List.mem_cons]
      constructor
      · intro hn d hd
        rcases hd with rfl | hd
        · exact hc
        · exact ih.mp hn d hd
      · intro hall
        exact ih.mpr (fun d hd => hall d (Or.inr hd))

theorem findFirst_lt_length (p : Char → Bool) (s : Str) (i : Nat)
    (h : findFirst p s = some i) : i < s.length := by
  induction s generalizing i with
  | nil => simp [findFirst] at h
  | cons c rest ih =>
    cases hc : p c with
    | true =>
      rw [findFirst, hc, if_pos rfl] at h
      obtain rfl := (Option.some_injective _ h.symm)
      simp
    | false =>
      rw [findFirst, hc] at h
      simp only [Bool.false_eq_true, if_false, Option.map_eq_some'] at h
      obtain ⟨j, hj, rfl⟩ := h
      have := ih j hj
      simp only [List.length_cons]
      omega

theorem take_findFirst (p : Char → Bool) (s : Str) (i : Nat)
    (h : findFirst p s = some i) :
    s.take i = s.takeWhile (fun c => !p c) := by
  induction s generalizing i with
  | nil => simp [findFirst] at h
  | cons c rest ih =>
    cases hc : p c with
    | true =>
      rw [findFirst, hc, if_pos rfl] at h
      obtain rfl := (Option.some_injective _ h.symm)
      simp [List.takeWhile_cons, hc]
    | false =>
      rw [findFirst, hc] at h
      simp only [Bool.false_eq_true, if_false, Option.map_eq_some'] at h
      obtain ⟨j, hj, rfl⟩ := h
      simp [List.takeWhile_cons, hc, List.take_succ_cons, ih j hj]

theorem takeWhile_eq_self_of_all (p : Char → Bool) (s : Str)
    (h : ∀ c ∈ s, p c = true) : s.takeWhile p = s := by
  induction s with
  | nil => rfl
  | cons c rest ih =>
    have hc := h c (List.mem_cons_self c rest)
    simp [List.takeWhile_cons, hc, ih (fun d hd => h d (List.mem_cons_of_mem c hd))]

theorem findFirstFrom_zero (p : Char → Bool) (s : Str) :
    findFirstFrom p s 0 = findFirst p s := by
  unfold findFirstFrom
  cases h : findFirst p (s.drop 0) <;> simp_all

theorem findLast_eq_none_iff (p : Char → Bool) (s : Str) :
    findLast p s = none ↔ ∀ c ∈ s, p c = false := by
  induction s with
  | nil => simp [findLast]
  | cons c rest ih =>
    cases h : findLast p rest with
    | some i => simp_all [findLast]
    | none =>
      cases hc : p c with
      | true => simp [findLast, h, hc]
      | false =>
        simp only [findLast, h, hc, Bool.false_eq_true, if_false, List.mem_cons]
        constructor
        · intro _ d hd
          rcases hd with rfl | hd
          · exact hc
          · exact ih.mp h d hd
        · intro _; trivial

theorem findLast_lt_length (p : Char → Bool) (s : Str) (i : Nat)
    (h : findLast p s = some i) : i < s.length := by
  induction s generalizing i with
  | nil => simp [findLast] at h
  | cons c rest ih =>
    rw [findLast] at h
    cases hr : findLast p rest with
    | some j =>
      rw [hr] at h
      obtain rfl := (Option.some_injective _ h.symm)
      have := ih j hr
      simp only [List.length_cons]
      omega
    | none =>
      rw [hr] at h
      cases hc : p c with
      | true =>
        rw [hc, if_pos rfl] at h
        obtain rfl := (Option.some_injective _ h.symm)
        simp
      | false =>
        rw [hc] at h
        simp at h

theorem findLast_append_single_false (p : Char → Bool) (s : Str) (c : Char)
    (hc : p c = false) : findLast p (s ++ [c]) = findLast p s := by
  induction s with
  | nil => simp [findLast, hc]
  | cons a s ih =>
    rw [List.cons_append, findLast, findLast, ih]

theorem findLast_append_single_true (p : Char → Bool) (s : Str) (c : Char)
    (hc : p c = true) : findLast p (s ++ [c]) = some s.length := by
  induction s with
  | nil => simp [findLast, hc]
  | cons a s ih =>
    rw [List.cons_append, findLast, ih, List.length_cons]

theorem findLast_all (p : Char → Bool) (s : Str) (hne : s ≠ [])
    (h : ∀ c ∈ s, p c = true) : findLast p s = some (s.length - 1) := by
  induction s with
  | nil => exact absurd rfl hne
  | cons c rest ih =>
    cases hr : rest with
    | nil =>
      have hc := h c (List.mem_cons_self c rest)
      subst hr
      simp [findLast, hc]
    | cons a t =>
      have hrest : findLast p rest = some (rest.length - 1) := by
        apply ih (by simp [hr]) (fun d hd => h d (List.mem_cons_of_mem c hd))
      have hlen : 1 ≤ rest.length := by simp [hr]
      rw [hr] at hrest hlen
      rw [findLast, hrest, List.length_cons]
      congr 1

theorem dropWhile_head_not (p : Char → Bool) (l : Str) (c : Char) (t : Str)
    (h : l.dropWhile p = c :: t) : p c = false := by
  induction l with
  | nil => simp [List.dropWhile] at h
  | cons a l ih =>
    cases ha : p a with
    | true =>
      rw [List.dropWhile_cons, if_pos (by simp [ha])] at h
      exact ih h
    | false =>
      rw [List.dropWhile_cons, if_neg (by simp [ha])] at h
      obtain ⟨rfl, -⟩ := List.cons_eq_cons.mp h
      exact ha

theorem findFirstFrom_cons_succ (p : Char → Bool) (c : Char) (s : Str) (st : Nat) :
    findFirstFrom p (c :: s) (st + 1) = (findFirstFrom p s st).map (· + 1) := by
  unfold findFirstFrom
  rw [List.drop_succ_cons]
  cases h : findFirst p (s.drop st) with
  | none => simp
  | some j => simp [Nat.add_assoc]

theorem charAt_cons_succ (c : Char) (s : Str) (i : Nat) :
    charAt (c :: s) (i + 1) = charAt s i := by
  unfold charAt
  rw [List.drop_succ_cons]

theorem substr_cons_succ (c : Char) (s : Str) (i len : Nat) :
    substr (c :: s) (i + 1) len = substr s i len := by
  unfold substr
  rw [List.drop_succ_cons]

/-- Skipping one leading whitespace character does not change the parsed
manifest location: all the index computations shift uniformly. -/
theorem parseManifestLine_ws_cons (c : Char) (s : Str) (hc : isManifestWS c = true) :
    parseManifestLine (c :: s) = parseManifestLine s := by
  have hpc : (!isManifestWS c) = false := by simp [hc]
  have hqc : (!isWSorHash c) = false := by simp [isWSorHash, hc]
  unfold parseManifestLine
  rw [findFirst, hpc]
  simp only [Bool.false_eq_true, if_false]
  cases hst : findFirst (fun d => !isManifestWS d) s with
  | none => simp
  | some st =>
    simp only [Option.map_some']
    rw [findLast, hqc]
    cases hen : findLast (fun d => !isWSorHash d) s with
    | none => simp
    | some en0 =>
      simp only
      rw [charAt_cons_succ, findFirstFrom_cons_succ, Nat.succ_sub_succ]
      cases hff : findFirstFrom isWSorHash s st with
      | none =>
        simp only [Option.map_none']
        rw [substr_cons_succ, Nat.succ_sub_succ]
      | some j =>
        simp only [Option.map_some']
        rw [substr_cons_succ, Nat.succ_sub_succ]

/-- Leading whitespace never changes the parsed manifest location. -/
theorem parseManifestLine_ws_append (w s : Str)
    (hw : ∀ c ∈ w, isManifestWS c = true) :
    parseManifestLine (w ++ s) = parseManifestLine s := by
  induction w with
  | nil => rfl
  | cons c w ih =>
    rw [List.cons_append,
      parseManifestLine_ws_cons c (w ++ s) (hw c (List.mem_cons_self c w)),
      ih (fun d hd => hw d (List.mem_cons_of_mem c hd))]

/-- A whole-line comment parses to no location. -/
theorem parseManifestLine_cons_hash (t : Str) :
    parseManifestLine (hashChar :: t) = none := by
  unfold parseManifestLine
  rw [findFirst]
  have h1 : (!isManifestWS hashChar) = true := by decide
  rw [h1, if_pos rfl]
  cases hen : findLast (fun d => !isWSorHash d) (hashChar :: t) with
  | none => simp
  | some en0 =>
    simp only
    rw [if_pos (show charAt (hashChar :: t) 0 = hashChar from rfl)]

/-- A line whose first non-skipped character is neither whitespace nor `#`
parses to the maximal leading run free of `"# \t\r\n"` characters: the
location with any inline trailing comment and trailing spacing stripped. -/
theorem parseManifestLine_cons_of (c : Char) (t : Str)
    (hws : isManifestWS c = false) (hh : c ≠ hashChar) :
    parseManifestLine (c :: t) =
      some ((c :: t).takeWhile (fun d => !isWSorHash d)) := by
  have hpc : (!isManifestWS c) = true := by simp [hws]
  have hqc : (!isWSorHash c) = true := by
    simp [isWSorHash, hws, hh]
  have hch : charAt (c :: t) 0 = c := rfl
  unfold parseManifestLine
  rw [findFirst, hpc, if_pos rfl]
  have hensome : ∃ en0, findLast (fun d => !isWSorHash d) (c :: t) = some en0 := by
    rw [findLast]
    cases h : findLast (fun d => !isWSorHash d) t with
    | some i => exact ⟨i + 1, rfl⟩
    | none => exact ⟨0, by rw [hqc, if_pos rfl]⟩
  obtain ⟨en0, hen⟩ := hensome
  rw [hen]
  simp only
  rw [hch, if_neg hh, findFirstFrom_zero]
  have hne : en0 + 1 - 0 ≠ 0 := by omega
  rw [if_neg hne]
  cases hff : findFirst isWSorHash (c :: t) with
  | some m =>
    simp only
    have := take_findFirst isWSorHash (c :: t) m hff
    unfold substr
    rw [List.drop_zero, Nat.sub_zero, this]
  | none =>
    simp only
    have hall : ∀ d ∈ (c :: t), isWSorHash d = false :=
      (findFirst_eq_none_iff _ _).mp hff
    have hallp : ∀ d ∈ (c :: t), (fun d => !isWSorHash d) d = true := by
      intro d hd
      simp [hall d hd]
    have hlast : findLast (fun d => !isWSorHash d) (c :: t) =
        some ((c :: t).length - 1) :=
      findLast_all _ _ (by simp) hallp
    rw [hen] at hlast
    obtain rfl : en0 = (c :: t).length - 1 := by
      exact Option.some_injective _ hlast
    unfold substr
    rw [List.drop_zero, Nat.sub_zero]
    have hlen : (c :: t).length - 1 + 1 = (c :: t).length := by
      simp
    rw [hlen, List.take_of_length_le (le_refl _),
      takeWhile_eq_self_of_all _ _ hallp]

/-- The full characterization of the manifest-entry trimming: skip leading
whitespace; an empty remainder or a leading `#` is ignored; otherwise the
location is the maximal run free of `#` and whitespace. -/
theorem parseManifestLine_eq (line : Str) :
    parseManifestLine line =
      match line.dropWhile isManifestWS with
      | [] => none
      | c :: t =>
        if c = hashChar then none
        else some ((c :: t).takeWhile (fun d => !isWSorHash d)) := by
  conv_lhs =>
    rw [← List.takeWhile_append_dropWhile isManifestWS line]
  rw [parseManifestLine_ws_append _ _
    (fun d hd => List.mem_takeWhile_imp hd)]
  cases hd : line.dropWhile isManifestWS with
  | nil => rfl
  | cons c t =>
    have hcw : isManifestWS c = false := dropWhile_head_not _ _ _ _ hd
    by_cases hch : c = hashChar
    · subst hch
      rw [parseManifestLine_cons_hash]
      simp
    · rw [parseManifestLine_cons_of c t hcw hch]
      simp [hch]

/- ### Supporting lemmas about the name trim -/

theorem trimTrailing_eq_spec (s : Str) (h : ∃ c ∈ s, isManifestWS c = false) :
    trimTrailing s = specTrimTrailing s := by
  induction s using List.reverseRecOn with
  | nil => simp at h
  | append_singleton s c ih =>
    cases hc : isManifestWS c with
    | true =>
      have hpc : (!isManifestWS c) = false := by simp [hc]
      have hspec : specTrimTrailing (s ++ [c]) = specTrimTrailing s := by
        unfold specTrimTrailing
        rw [List.reverse_append, List.reverse_singleton]
        simp [List.dropWhile_cons, hc]
      have hwit : ∃ d ∈ s, isManifestWS d = false := by
        obtain ⟨d, hd, hdw⟩ := h
        rcases List.mem_append.mp hd with hd | hd
        · exact ⟨d, hd, hdw⟩
        · simp at hd
          subst hd
          rw [hc] at hdw
          cases hdw
      unfold trimTrailing
      rw [findLast_append_single_false _ _ _ hpc]
      cases hfl : findLast (fun d => !isManifestWS d) s with
      | none =>
        exfalso
        obtain ⟨d, hd, hdw⟩ := hwit
        have := (findLast_eq_none_iff _ _).mp hfl d hd
        simp [hdw] at this
      | some en =>
        have hlt := findLast_lt_length _ _ _ hfl
        show List.take (en + 1) (s ++ [c]) = specTrimTrailing (s ++ [c])
        rw [List.take_append_of_le_length (by omega), hspec]
        have := ih hwit
        unfold trimTrailing at this
        rw [hfl] at this
        exact this
    | false =>
      have hpc : (!isManifestWS c) = true := by simp [hc]
      unfold trimTrailing
      rw [findLast_append_single_true _ _ _ hpc]
      show List.take (s.length + 1) (s ++ [c]) = specTrimTrailing (s ++ [c])
      rw [List.take_of_length_le (by simp)]
      unfold specTrimTrailing
      rw [List.reverse_append, List.reverse_singleton]
      simp [List.dropWhile_cons, hc]

theorem trimTrailing_all_ws (s : Str) (h : ∀ c ∈ s, isManifestWS c = true) :
    trimTrailing s = s := by
  unfold trimTrailing
  have hn : findLast (fun d => !isManifestWS d) s = none :=
    (findLast_eq_none_iff _ _).mpr (fun c hc => by simp [h c hc])
  rw [hn]

theorem truncate22_eq_take (s : Str) : truncate22 s = s.take 22 := by
  unfold truncate22
  split
  · rfl
  · rw [List.take_of_length_le (by omega)]

/- ### Claim theorems -/

/-- C1: the claim states that a line not classified as a name line is
used as the first data line of a nameless record, so that a two-line
input (first line ≥ 25 chars, not alphabetic-leading) parses to one
nameless ElementRecord.  The code disagrees: after the name-line test the
loop unconditionally reads TWO further lines as the data lines, so the
current line is discarded, the second line is consumed as data line 1,
the read of data line 2 hits end of input, and the parse returns ZERO
records plus the truncated-record diagnostic.  This theorem evaluates the
embedded `readTLEs` at exactly the claim's input. -/
theorem c1_twoLine_record_yields_nothing :
    classifyName exC1Line1 = false
    ∧ exC1Line1.length ≥ 25
    ∧ readTLEs [exC1Line1, exC1Line2] = ([], true) := by
  refine ⟨by decide, by decide, rfl⟩

/-- C3: upserting `r1` then `r2` with the same catalog identifier leaves
exactly one row under that identifier, holding `r2` whole (name and both
data lines — last-write-wins replacement); and an upsert never disturbs
rows under any other identifier. -/
theorem filter_key_cancel (l : DBState) (k : Nat) :
    l.filter (fun a => (a.1 == k) && (a.1 != k)) = [] := by
  induction l with
  | nil => rfl
  | cons a l ih =>
    have hfa : ((a.1 == k) && (a.1 != k)) = false := by
      cases hak : a.1 == k <;> simp [hak, bne]
    simp [List.filter_cons, hfa, ih]

theorem filter_key_keep (l : DBState) (k k2 : Nat) (h : k ≠ k2) :
    l.filter (fun a => (a.1 == k) && (a.1 != k2))
      = l.filter (fun a => a.1 == k) := by
  induction l with
  | nil => rfl
  | cons a l ih =>
    have hfa : ((a.1 == k) && (a.1 != k2)) = (a.1 == k) := by
      cases hak : a.1 == k
      · simp
      · have ha : a.1 = k := by simpa using hak
        simp [bne, ha, h]
    simp only [List.filter_cons, hfa, ih]

theorem c3_upsert_last_write_wins (noradOf : TleRec → Nat) (db : DBState)
    (r1 r2 : TleRec) (h : noradOf r1 = noradOf r2) :
    (dbUpdate noradOf (dbUpdate noradOf db r1) r2).filter
        (fun row => row.1 == noradOf r1) = [(noradOf r2, r2)]
    ∧ ∀ (db2 : DBState) (r : TleRec) (k : Nat), k ≠ noradOf r →
        (dbUpdate noradOf db2 r).filter (fun row => row.1 == k)
          = db2.filter (fun row => row.1 == k) := by
  constructor
  · rw [h]
    unfold dbUpdate
    rw [List.filter_append, List.filter_filter, filter_key_cancel]
    simp
  · intro db2 r k hk
    unfold dbUpdate
    rw [List.filter_append, List.filter_filter, filter_key_keep _ _ _ hk]
    have h2 : (((noradOf r, r) : Nat × TleRec).1 == k) = false := by
      simp
      omega
    simp [h2]

/-- C3 witness: two concrete records sharing catalog identifier 5. -/
theorem c3_upsert_last_write_wins_witness :
    (dbUpdate (fun _ => 5) (dbUpdate (fun _ => 5) [] ⟨['X'], [], []⟩) ⟨['Y'], [], []⟩).filter
        (fun row => row.1 == (5 : Nat)) = [(5, ⟨['Y'], [], []⟩)] :=
  (c3_upsert_last_write_wins (fun _ => 5) [] ⟨['X'], [], []⟩ ⟨['Y'], [], []⟩ rfl).1

/-- C5: `getSatellitesAndLookAngles` (the view build) always yields a
range-ascending sequence, a refresh re-sorts back to range-ascending
order, and the spec's worked example holds: ranges 500/100/300 order as
[100, 300, 500] and re-order as [50, 200, 400] after a refresh changes
them to 50/400/200. -/
theorem c5_build_and_refresh_sorted :
    (∀ (la : LookAngleFn) (lat lon alt : ℚ) (tles : List TleRec) (now : ℕ),
        ((getSatellitesAndLookAngles la lat lon alt tles now).sats).Sorted rangeLe)
    ∧ (∀ (la : LookAngleFn) (now : ℕ) (v : SatView),
        ((refreshView la now v).sats).Sorted rangeLe)
    ∧ ((getSatellitesAndLookAngles exRangesLa 0 0 0 [recA, recB, recC] 0).sats.map
        (fun p => p.2.range)) = [100, 300, 500]
    ∧ ((refreshView exRangesLa 1
          (getSatellitesAndLookAngles exRangesLa 0 0 0 [recA, recB, recC] 0)).sats.map
        (fun p => p.2.range)) = [50, 200, 400] := by
  refine ⟨?_, ?_, by decide, by decide⟩
  · intro la lat lon alt tles now
    exact List.sorted_insertionSort rangeLe _
  · intro la now v
    exact List.sorted_insertionSort rangeLe _

/-- C6: a refresh recaptures the timestamp once and recomputes every look
angle against that one shared instant; the record sequence, the observer
position, and (after the re-sort) the record multiset are untouched —
only the derived bearings and the ordering change, and the store is never
re-queried (`updateTimeAndPositions` never consults a store at all). -/
theorem c6_refresh_frame (la : LookAngleFn) (v : SatView) (now : ℕ) :
    (v.updateTimeAndPositions la now).time = now
    ∧ (v.updateTimeAndPositions la now).sats.map Prod.fst = v.sats.map Prod.fst
    ∧ (∀ p ∈ (v.updateTimeAndPositions la now).sats,
        p.2 = la p.1 v.lat v.lon v.alt now)
    ∧ (v.updateTimeAndPositions la now).lat = v.lat
    ∧ (v.updateTimeAndPositions la now).lon = v.lon
    ∧ (v.updateTimeAndPositions la now).alt = v.alt
    ∧ List.Perm ((refreshView la now v).sats.map Prod.fst) (v.sats.map Prod.fst) := by
  refine ⟨rfl, ?_, ?_, rfl, rfl, rfl, ?_⟩
  · unfold SatView.updateTimeAndPositions
    simp [List.map_map]
  · intro p hp
    unfold SatView.updateTimeAndPositions at hp
    simp only [List.mem_map] at hp
    obtain ⟨q, _, rfl⟩ := hp
    rfl
  · have h1 : List.Perm (refreshView la now v).sats
        (v.updateTimeAndPositions la now).sats := by
      unfold refreshView SatView.sortSats
      exact List.perm_insertionSort rangeLe _
    have h2 := h1.map Prod.fst
    have h3 : (v.updateTimeAndPositions la now).sats.map Prod.fst
        = v.sats.map Prod.fst := by
      unfold SatView.updateTimeAndPositions
      simp [List.map_map]
    rw [h3] at h2
    exact h2

/-- C6 witness: the frame conditions applied at a concrete one-record
view, including the recomputed-bearing fact for its concrete entry. -/
theorem c6_refresh_frame_witness :
    (exView.updateTimeAndPositions exRangesLa 5).time = 5
    ∧ (recA, exRangesLa recA 0 0 0 5).2
        = exRangesLa recA exView.lat exView.lon exView.alt 5 :=
  ⟨(c6_refresh_frame exRangesLa exView 5).1,
   (c6_refresh_frame exRangesLa exView 5).2.2.1 _ (by decide)⟩

/-- C7: out-of-range observer coordinates are rejected by `main` before
any work: the run performs no store upsert and no bearing computation;
in particular the coordinate pairs (91, 0) and (0, 181) are rejected. -/
theorem c7_invalid_coords_rejected (w : World) (noradOf : TleRec → Nat)
    (lat lon alt : ℚ) (manifest : Option (List Str)) (db : DBState)
    (h : lat > 90 ∨ lat < -90 ∨ lon > 180 ∨ lon < -180) :
    mainModel w noradOf lat lon alt manifest db = ⟨true, [], []⟩
    ∧ mainModel w noradOf 91 0 alt manifest db = ⟨true, [], []⟩
    ∧ mainModel w noradOf 0 181 alt manifest db = ⟨true, [], []⟩ := by
  refine ⟨?_, ?_, ?_⟩
  · unfold mainModel
    rw [if_pos h]
  · unfold mainModel
    rw [if_pos (by norm_num)]
  · unfold mainModel
    rw [if_pos (by norm_num)]

/-- C7 witness: the rejection at latitude 91. -/
theorem c7_invalid_coords_rejected_witness :
    mainModel exWorld (fun _ => 0) 91 0 0 none [] = ⟨true, [], []⟩ :=
  (c7_invalid_coords_rejected exWorld (fun _ => 0) 91 0 0 none []
    (Or.inl (by norm_num))).1

/-- C9: the input wait is configured with `-1` (block indefinitely)
exactly when the refresh timeout is negative/unset, and with the
configured non-negative value otherwise (bounding the wait); an expired
wait (`ERR`) is handled identically to the explicit refresh key — look
angles recomputed against a fresh instant and re-sorted — leaving the
listing state (panel, cursor) untouched; and under a blocking wait, where
`getch` never returns `ERR`, a trace without explicit refresh keys never
changes the view (no automatic refresh). -/
theorem c9_timed_refresh (refreshSecs : Int) (la : LookAngleFn)
    (st : GuiState) (now : ℕ) (events : List GuiEvent)
    (hpos : refreshSecs ≥ 0)
    (hevs : ∀ e ∈ events, e.1 ≠ none ∧ e.1 ≠ some GuiKey.space) :
    renderTimeoutMsecs refreshSecs = refreshSecs
    ∧ (∀ neg : Int, neg < 0 → renderTimeoutMsecs neg = -1)
    ∧ guiStep la st (none, now) = guiStep la st (some GuiKey.space, now)
    ∧ (guiStep la st (none, now)).view = refreshView la now st.view
    ∧ (guiStep la st (none, now)).detailShown = st.detailShown
    ∧ (guiStep la st (none, now)).cursor = st.cursor
    ∧ (renderRun la events st).view = st.view := by
  refine ⟨?_, ?_, rfl, rfl, rfl, rfl, ?_⟩
  · unfold renderTimeoutMsecs
    rw [if_neg (by omega)]
  · intro neg hneg
    unfold renderTimeoutMsecs
    rw [if_pos hneg]
  · induction events generalizing st with
    | nil => rfl
    | cons e rest ih =>
      obtain ⟨hne, hns⟩ := hevs e (List.mem_cons_self e rest)
      have hrest : ∀ d ∈ rest, d.1 ≠ none ∧ d.1 ≠ some GuiKey.space :=
        fun d hd => hevs d (List.mem_cons_of_mem e hd)
      unfold renderRun
      by_cases hq : e.1 = some GuiKey.quit
      · rw [if_pos hq]
      · rw [if_neg hq]
        have hview : (guiStep la st e).view = st.view := by
          unfold guiStep
          rcases he : e.1 with - | k
          · exact absurd he hne
          · cases k <;> simp_all
        rw [ih _ hrest]
        rw [hview]

/-- C9 witness: a positive timeout, and a cursor-move-only trace leaving
the view unchanged. -/
theorem c9_timed_refresh_witness :
    renderTimeoutMsecs 3 = 3
    ∧ (renderRun exRangesLa [(some GuiKey.down, 0)] exGuiState).view
        = exGuiState.view :=
  ⟨(c9_timed_refresh 3 exRangesLa exGuiState 0 [(some GuiKey.down, 0)]
      (by omega) (by decide)).1,
   (c9_timed_refresh 3 exRangesLa exGuiState 0 [(some GuiKey.down, 0)]
      (by omega) (by decide)).2.2.2.2.2.2⟩

theorem collectTLEs_all_skipped (w : World) (manifest : List Str) (n : Nat)
    (h : ∀ l ∈ manifest, parseManifestLine l = none) :
    collectTLEs w manifest n = ([], [], []) := by
  induction manifest generalizing n with
  | nil => rfl
  | cons line rest ih =>
    unfold collectTLEs
    rw [h line (List.mem_cons_self line rest)]
    exact ih _ (fun d hd => h d (List.mem_cons_of_mem line hd))

/-- C8: a manifest consisting only of skipped lines drives no resolution
attempt and upserts nothing (the store comes back unchanged, with no
diagnostics); whitespace-only lines and whole-line comments are always
skipped; and any parsed location is exactly the leading run of the
de-indented line up to the first `#` or whitespace — i.e. inline trailing
comments are stripped before the location is used. -/
theorem c8_comment_blank_manifest (w : World) (noradOf : TleRec → Nat)
    (manifest : List Str) (db : DBState)
    (h : ∀ l ∈ manifest, parseManifestLine l = none) :
    updateModel w noradOf manifest db = (db, [], [])
    ∧ (∀ line : Str, (∀ c ∈ line, isManifestWS c = true) →
        parseManifestLine line = none)
    ∧ (∀ (line t : Str), line.dropWhile isManifestWS = hashChar :: t →
        parseManifestLine line = none)
    ∧ (∀ (line loc : Str), parseManifestLine line = some loc →
        loc = (line.dropWhile isManifestWS).takeWhile (fun d => !isWSorHash d)) := by
  refine ⟨?_, ?_, ?_, ?_⟩
  · unfold updateModel
    rw [collectTLEs_all_skipped w manifest 0 h]
    rfl
  · intro line hws
    rw [parseManifestLine_eq]
    rw [List.dropWhile_eq_nil_iff.mpr (fun a ha => by simp [hws a ha])]
  · intro line t hdrop
    rw [parseManifestLine_eq, hdrop]
    simp
  · intro line loc hsome
    rw [parseManifestLine_eq] at hsome
    cases hd : line.dropWhile isManifestWS with
    | nil =>
      rw [hd] at hsome
      simp at hsome
    | cons c t =>
      rw [hd] at hsome
      by_cases hch : c = hashChar
      · simp [hch] at hsome
      · simp only [hch, if_false] at hsome
        exact (Option.some_injective _ hsome).symm

/-- C8 witness: a comment line, an empty line and a whitespace line upsert
nothing; an inline comment is stripped from a location. -/
theorem c8_comment_blank_manifest_witness :
    updateModel exWorld (fun _ => 0) exManifest [] = ([], [], [])
    ∧ String.data "file.txt"
        = (exStripLine.dropWhile isManifestWS).takeWhile (fun d => !isWSorHash d) :=
  ⟨(c8_comment_blank_manifest exWorld (fun _ => 0) exManifest [] (by decide)).1,
   (c8_comment_blank_manifest exWorld (fun _ => 0) exManifest [] (by decide)).2.2.2
     exStripLine (String.data "file.txt") (by decide)⟩

/-- C2: the claim states the remote path reports `found=true` exactly when
it resolves the location, and that an entry resolvable by neither path
yields one diagnostic.  The code inverts the success test
(`bool ok = !!curl_easy_perform(crl)` is `true` exactly when the CURLcode
is nonzero, i.e. on a FAILED transfer), so a remote locator whose fetch
fails comes back `found=true`: the entry contributes zero records yet the
manifest loop emits NO diagnostic for it.  This theorem evaluates the
embedding at such an entry: local resolution fails, the fetch fails with
CURLcode 7, `tryParseURL` returns `true`, and `update` ends with an
unchanged store, an empty diagnostic list, and both resolution attempts
made (local first, then remote). -/
theorem c2_failed_fetch_reports_found :
    (tryParseFile exWorld exUrl).1 = false
    ∧ (tryParseURL exWorld exUrl).1 = true
    ∧ (tryParseURL exWorld exUrl).2 = []
    ∧ updateModel exWorld (fun _ => 0) [exUrl] []
        = ([], [], [(exUrl, false), (exUrl, true)]) := by
  refine ⟨by decide, by decide, by decide, by decide⟩

/-- C4 counterexample: a three-line record whose name line is entirely
whitespace.  The heuristic classifies it as a name line (length ≤ 24),
but `find_last_not_of` returns `npos` on an all-whitespace string and the
code then skips the trim, so the stored name keeps its whitespace — while
the claim's "trailing whitespace trimmed then truncated" name would be
empty.  The parse also emits no diagnostic. -/
theorem c4_allws_name_kept_untrimmed :
    (readTLEs [exSpaces, exC1Line1, exC1Line2]).1.map (fun r => r.name)
      = [exSpaces]
    ∧ truncate22 (specTrimTrailing exSpaces) = []
    ∧ exSpaces ≠ [] := by
  refine ⟨by decide, by decide, by decide⟩

/-- C4 (amended): parsing a well-formed three-line record — a line the
heuristic classifies as a name line followed by two data lines — yields
exactly one record, with both data lines truncated to 69 characters
(kept whole when no longer than 69, never padded) and no diagnostic; the
name is the name line with trailing whitespace trimmed and then capped at
22 characters whenever the name line has any non-whitespace character,
while an all-whitespace name line is kept untrimmed (only capped at 22);
the stored name never exceeds 22 characters. -/
theorem c4_threeLine_record (n d1 d2 : Str) (hn : classifyName n = true) :
    (readTLEs [n, d1, d2]).1 = [⟨tleName n, d1.take 69, d2.take 69⟩]
    ∧ (readTLEs [n, d1, d2]).2 = false
    ∧ ((∃ c ∈ n, isManifestWS c = false) →
        tleName n = truncate22 (specTrimTrailing n))
    ∧ ((∀ c ∈ n, isManifestWS c = true) → tleName n = n.take 22)
    ∧ (d1.length ≤ 69 → d1.take 69 = d1)
    ∧ (tleName n).length ≤ 22 := by
  refine ⟨rfl, rfl, ?_, ?_, ?_, ?_⟩
  · intro hex
    unfold tleName
    rw [if_pos hn, trimTrailing_eq_spec n hex]
  · intro hws
    unfold tleName
    rw [if_pos hn, trimTrailing_all_ws n hws, truncate22_eq_take]
  · intro hlen
    exact List.take_of_length_le hlen
  · rw [show tleName n = truncate22 (trimTrailing (if classifyName n then n else [])) from rfl,
      truncate22_eq_take]
    simp [List.length_take]

/-- C4 witness: an ordinary alphabetic name line with trailing blanks and
two full-width data lines. -/
theorem c4_threeLine_record_witness :
    (readTLEs [exName, exC1Line1, exC1Line2]).1
      = [⟨tleName exName, exC1Line1.take 69, exC1Line2.take 69⟩]
    ∧ tleName exName = truncate22 (specTrimTrailing exName) :=
  ⟨(c4_threeLine_record exName exC1Line1 exC1Line2 (by decide)).1,
   (c4_threeLine_record exName exC1Line1 exC1Line2 (by decide)).2.2.1
     ⟨'I', by decide, by decide⟩⟩

/- ### Supporting lemmas for the query round trip -/

theorem digitChar_isDigit (d : Nat) : (digitChar d).isDigit = true := by
  rcases d with _|_|_|_|_|_|_|_|_|d <;> rfl

theorem natStrAux_all_digits (n : Nat) :
    ∀ (acc : Str), (∀ c ∈ acc, c.isDigit = true) →
      ∀ c ∈ natStrAux n acc, c.isDigit = true := by
  induction n using Nat.strong_induction_on with
  | _ n ih =>
    intro acc hacc c hc
    unfold natStrAux at hc
    split at hc
    · rcases List.mem_cons.mp hc with rfl | hmem
      · exact digitChar_isDigit n
      · exact hacc c hmem
    · rename_i hlt
      refine ih (n / 10) (Nat.div_lt_self (by omega) (by omega))
        (digitChar (n % 10) :: acc) ?_ c hc
      intro d hd
      rcases List.mem_cons.mp hd with rfl | hmem
      · exact digitChar_isDigit (n % 10)
      · exact hacc d hmem

theorem natStr_no_dquote (n : Nat) : dquote ∉ natStr n := by
  intro hmem
  have := natStrAux_all_digits n [] (by simp) dquote hmem
  exact absurd this (by decide)

theorem dropThrough_cons (q c : Char) (s : Str) :
    dropThrough q (c :: s) = if c = q then s else dropThrough q s := rfl

theorem dropThrough_cons_ne (q c : Char) (hc : c ≠ q) (s : Str) :
    dropThrough q (c :: s) = dropThrough q s := by
  rw [dropThrough_cons, if_neg hc]

theorem dropThrough_cons_self (q : Char) (s : Str) :
    dropThrough q (q :: s) = s := by
  rw [dropThrough_cons, if_pos rfl]

theorem dropThrough_append_not_mem (q : Char) (p : Str) (hp : q ∉ p)
    (s : Str) : dropThrough q (p ++ s) = dropThrough q s := by
  induction p with
  | nil => rfl
  | cons c pr ih =>
    simp only [List.mem_cons, not_or] at hp
    rw [List.cons_append, dropThrough_cons, if_neg (fun hh => hp.1 hh.symm)]
    exact ih hp.2

theorem readLit_cons_ne (q a : Char) (ha : a ≠ q) (s : Str) :
    readLit q (a :: s) = (a :: (readLit q s).1, (readLit q s).2) := by
  conv_lhs => rw [readLit.eq_def]
  simp [ha]

theorem readLit_close (q c : Char) (hc : c ≠ q) (rest : Str) :
    readLit q (q :: c :: rest) = ([], c :: rest) := by
  conv_lhs => rw [readLit.eq_def]
  simp [hc]

theorem readLit_exact (q c : Char) (hc : c ≠ q) (content : Str)
    (hq : q ∉ content) (rest : Str) :
    readLit q (content ++ q :: c :: rest) = (content, c :: rest) := by
  induction content with
  | nil =>
    rw [List.nil_append]
    exact readLit_close q c hc rest
  | cons a ct ih =>
    simp only [List.mem_cons, not_or] at hq
    rw [List.cons_append, readLit_cons_ne q a (fun hh => hq.1 hh.symm),
      ih hq.2]

/-- C10: `DBSQLite::update` interpolates the record's fields into the SQL
text with the name single-quoted, the data lines double-quoted, and no
escaping (this is `mkUpdateQuery` verbatim); consequently, whenever the
name contains no single quote and the data lines contain no double quote,
what SQLite stores — and what a subsequent full fetch returns — is
exactly the record's name and data lines; and the round trip is lost once
a field contains its delimiter, witnessed by a name holding one single
quote whose stored form differs from it. -/
theorem c10_query_round_trip :
    (∀ (name line1 line2 : Str) (norad : Nat),
        squote ∉ name → dquote ∉ line1 → dquote ∉ line2 →
        extractFields (mkUpdateQuery name norad line1 line2)
          = (name, line1, line2))
    ∧ (extractFields (mkUpdateQuery exBadName 7 [] [])).1 ≠ exBadName := by
  constructor
  · intro name line1 line2 norad hn h1 h2
    have hshape : mkUpdateQuery name norad line1 line2
        = qPre1 ++ (qPre2 ++ squote :: (name ++ squote ::
            (qSep ++ (natStr norad ++ (qSep ++ dquote ::
              (line1 ++ dquote :: (qSep ++ dquote ::
                (line2 ++ dquote :: qEnd)))))))) := by
      unfold mkUpdateQuery
      simp [List.append_assoc]
    simp only [extractFields, hshape, qSep, qEnd,
      List.cons_append, List.nil_append,
      dropThrough_append_not_mem squote qPre1 (by decide),
      dropThrough_append_not_mem squote qPre2 (by decide),
      dropThrough_append_not_mem dquote (natStr norad) (natStr_no_dquote norad),
      dropThrough_cons_self,
      dropThrough_cons_ne squote ',' (by decide),
      dropThrough_cons_ne dquote ',' (by decide),
      dropThrough_cons_ne dquote ' ' (by decide),
      readLit_exact squote ',' (by decide) name hn,
      readLit_exact dquote ',' (by decide) line1 h1,
      readLit_exact dquote ')' (by decide) line2 h2]
  · decide

/-- C10 witness: a quote-free record round-trips exactly. -/
theorem c10_query_round_trip_witness :
    extractFields (mkUpdateQuery (String.data "SAT") 25544
        exC1Line1 exC1Line2)
      = (String.data "SAT", exC1Line1, exC1Line2) :=
  c10_query_round_trip.1 (String.data "SAT") exC1Line1 exC1Line2 25544
    (by decide) (by decide) (by decide)
